import Mathlib

/-!
Formal model of the SCIL payroll cross-detection core: the quincena activity
predicate, the cross detector and the traceability records
(core/data_processor.py), the hash-addressed finding store, merged per-RFC
reads, pagination and solventaciones (core/database.py), and the access and
display helpers of app.py.

Python strings are modeled as Lean `String`; all character-level operations
(strip, upper, accent replacement, code-point comparison) are defined below
over `List Char` so that every definition evaluates inside the kernel.
Missing spreadsheet cells (pandas NaN) and absent dict keys are `none`.
-/

/-- Whitespace test used by Python str.strip (space, tab, LF, CR, VT, FF). -/
def isSpaceC (c : Char) : Bool :=
  c.toNat == 32 || c.toNat == 9 || c.toNat == 10 || c.toNat == 13 || c.toNat == 11 || c.toNat == 12

/-- ASCII uppercase of one character; this is also what SQLite UPPER does. -/
def asciiUpperChar (c : Char) : Char :=
  if 97 ≤ c.toNat && c.toNat ≤ 122 then Char.ofNat (c.toNat - 32) else c

/-- Python str.upper on one character, for the character set this repository
uses: ASCII letters plus the accented lowercase vowels of the entity catalog
(Python upper is full Unicode; only these code points occur here). -/
def pyUpperChar (c : Char) : Char :=
  if c.toNat == 225 then Char.ofNat 193
  else if c.toNat == 233 then Char.ofNat 201
  else if c.toNat == 237 then Char.ofNat 205
  else if c.toNat == 243 then Char.ofNat 211
  else if c.toNat == 250 then Char.ofNat 218
  else asciiUpperChar c

/-- Replace the accented uppercase vowels by their plain forms, as the loop
over zip("ÁÉÍÓÚ", "AEIOU") in DatabaseManager._sanitize does. -/
def accentChar (c : Char) : Char :=
  if c.toNat == 193 then Char.ofNat 65
  else if c.toNat == 201 then Char.ofNat 69
  else if c.toNat == 205 then Char.ofNat 73
  else if c.toNat == 211 then Char.ofNat 79
  else if c.toNat == 218 then Char.ofNat 85
  else c

/-- Python str.strip on a character list. -/
def trimChars (l : List Char) : List Char :=
  ((l.dropWhile isSpaceC).reverse.dropWhile isSpaceC).reverse

/-- Python str(x).strip().upper(), the normalization of app.py _sanitize_text
and of the raw-cell handling in core/data_processor.py. -/
def stripUpper (s : String) : String := ⟨(trimChars s.data).map pyUpperChar⟩

/-- app.py _sanitize_text (line 69-70): str(s or "").strip().upper(). -/
def sanitize_text (s : String) : String := stripUpper s

/-- DatabaseManager._sanitize (core/database.py 180-186): strip, upper, then
replace the accented uppercase vowels. -/
def sanitize (s : String) : String := ⟨((trimChars s.data).map pyUpperChar).map accentChar⟩

/-- SQLite UPPER, which uppercases ASCII letters only. -/
def sqlUpper (s : String) : String := ⟨s.data.map asciiUpperChar⟩

/-- A spreadsheet or dict value: none models a missing value (pandas NaN or an
absent key). -/
abbrev Cell := Option String

/-- The markers whose trimmed uppercase form means an inactive quincena
(core/data_processor.py line 179). -/
def inactivos : List String := ["", "0", "0.0", "NO", "N/A", "NA", "NONE"]

/-- DataProcessor._es_activo (core/data_processor.py 175-179): a cell is
active iff it is present and its trimmed uppercase string form is not one of
the inactive markers. -/
def es_activo (valor : Cell) : Bool :=
  match valor with
  | none => false
  | some s => !(inactivos.contains (stripUpper s))

/-- One source row as accumulated into entes_rfc by procesar_archivos: the
dict appended in core/data_processor.py 129-137. qnas is the association list
of the quincena columns of the row (dict keys are the column names, values
the raw cells). -/
structure Registro where
  ente : String
  nombre : String
  puesto : String
  fecha_ingreso : Option String
  fecha_egreso : Option String
  qnas : List (String × Cell)
  monto : Cell
deriving DecidableEq

/-- A finding dict as built by the detector. fecha_comun is Option because the
dicts built by _empleados_sin_cruce carry no fecha_comun key at all; none
models the absent key. -/
structure Hallazgo where
  rfc : String
  nombre : String
  entes : List String
  fecha_comun : Option String
  tipo_patron : String
  descripcion : String
  registros : List Registro
  estado : String
  solventacion : String
deriving DecidableEq

/-- Lexicographic (code-point) strict comparison of character lists; this is
how Python compares strings. -/
def lexLt : List Char → List Char → Bool
  | [], [] => false
  | [], _ :: _ => true
  | _ :: _, [] => false
  | a :: as, b :: bs =>
    if a.toNat < b.toNat then true
    else if b.toNat < a.toNat then false
    else lexLt as bs

/-- Python string less-or-equal (code-point lexicographic). -/
def strLe (s t : String) : Bool := !(lexLt t.data s.data)

/-- Insert a string into a list that is kept in ascending strLe order. -/
def insertLe (x : String) : List String → List String
  | [] => [x]
  | y :: ys => if strLe x y then x :: y :: ys else y :: insertLe x ys

/-- Insertion sort by Python string order. -/
def sortStr (l : List String) : List String := l.foldr insertLe []

/-- Python sorted(set(xs)) for strings: the distinct elements in ascending
code-point order. -/
def sortedSet (l : List String) : List String := sortStr l.dedup

/-- Decimal digit test. -/
def isDigitC (c : Char) : Bool := 48 ≤ c.toNat && c.toNat ≤ 57

/-- Python int() on a digit string. int("") would raise ValueError; the 0
returned here for an empty list is unreachable for the QNA1..QNA24 column
names produced by ingestion. -/
def digitsToNat (l : List Char) : Nat := l.foldl (fun acc c => acc * 10 + (c.toNat - 48)) 0

/-- The int(re.sub of the non-digits of qna) step of _cruces_quincenales
(core/data_processor.py 199). -/
def qnaNum (qna : String) : Nat := digitsToNat (qna.data.filter isDigitC)

/-- The character of a decimal digit. -/
def digitC (n : Nat) : Char := Char.ofNat (48 + n)

/-- Decimal digits of a natural number, fuel-based; fuel n+1 always suffices. -/
def natDigitsAux : Nat → Nat → List Char
  | 0, _ => []
  | fuel+1, n => if n < 10 then [digitC n] else natDigitsAux fuel (n / 10) ++ [digitC (n % 10)]

/-- Decimal rendering of a natural number. -/
def natStr (n : Nat) : String := ⟨natDigitsAux (n+1) n⟩

/-- The Python format spec 02d: zero-pad to two digits. -/
def pad2 (n : Nat) : String := if n < 10 then ⟨'0' :: natDigitsAux (n+1) n⟩ else natStr n

/-- The fecha_comun of a cross finding (core/data_processor.py 204): the year
followed by Q and the zero-padded quincena number. -/
def fechaComunQ (anio n : Nat) : String := ⟨(natStr anio).data ++ 'Q' :: (pad2 n).data⟩

/-- The quincena column name QNA followed by the number n. -/
def qnaName (n : Nat) : String := ⟨'Q' :: 'N' :: 'A' :: (natStr n).data⟩

/-- Python dict get on the qnas of a row: none when the key is absent; the
stored cell may itself be missing. Either way es_activo is false. -/
def getQna (r : Registro) (q : String) : Cell := (r.qnas.lookup q).join

/-- DataProcessor._cruces_quincenales (core/data_processor.py 181-211).
entes_rfc is the accumulated RFC-to-rows map in insertion order; anio models
datetime.now().year. A Python empty qnas_presentes hits a continue, which
coincides with flatMap over the empty list. activos is indexed at 0 in the
source, which is safe because entes_activos nonempty forces activos nonempty;
the headD default is unreachable. -/
def cruces_quincenales (anio : Nat) (entes_rfc : List (String × List Registro)) : List Hallazgo :=
  entes_rfc.flatMap fun p =>
    if p.2.length < 2 then []
    else
      let qnas_presentes := sortedSet ((p.2.flatMap (·.qnas)).filterMap
        (fun qv => if es_activo qv.2 then some qv.1 else none))
      qnas_presentes.flatMap fun qna =>
        let activos := p.2.filter fun r => es_activo (getQna r qna)
        let entes_activos := sortedSet (activos.map (·.ente))
        if entes_activos.length > 1 then
          [{ rfc := p.1
           , nombre := ((activos.head?).map (·.nombre)).getD ""
           , entes := entes_activos
           , fecha_comun := some (fechaComunQ anio (qnaNum qna))
           , tipo_patron := "CRUCE_ENTRE_ENTES_QNA"
           , descripcion := "Activo en más de un ente en la quincena " ++ qna ++ "."
           , registros := activos
           , estado := "Sin valoración"
           , solventacion := "" }]
        else []

/-- The traceability dict appended by _empleados_sin_cruce for one entry of
entes_rfc (core/data_processor.py 160-169). It has no fecha_comun key (none
here). registros is indexed at 0 in the source; entes_rfc values are nonempty
by construction, making the headD default unreachable. -/
def sinCruceDe (p : String × List Registro) : Hallazgo :=
  { rfc := p.1
  , nombre := ((p.2.head?).map (·.nombre)).getD ""
  , entes := sortedSet (p.2.map (·.ente))
  , fecha_comun := none
  , tipo_patron := "SIN_DUPLICIDAD"
  , descripcion := "Empleado sin cruce detectado"
  , registros := p.2
  , estado := "Sin valoración"
  , solventacion := "" }

/-- DataProcessor._empleados_sin_cruce (core/data_processor.py 153-170): one
traceability record per RFC not present among the hallazgos. -/
def empleados_sin_cruce (entes_rfc : List (String × List Registro))
    (hallazgos : List Hallazgo) : List Hallazgo :=
  let hallados := hallazgos.map (·.rfc)
  (entes_rfc.filter fun p => !(hallados.contains p.1)).map sinCruceDe

/-- JSON string rendering of a string value (quoting only; escape sequences
are not reproduced — only determinism and nonemptiness of the serialization
are used by the development). -/
def jstr (s : String) : String := "\"" ++ s ++ "\""

/-- JSON rendering of a nullable string. -/
def jopt (s : Option String) : String :=
  match s with
  | none => "null"
  | some v => jstr v

/-- JSON rendering of the qnas dict of a row. -/
def serializeQnas (qnas : List (String × Cell)) : String :=
  "\x7b" ++ String.intercalate "," (qnas.map fun qv => jstr qv.1 ++ ":" ++ jopt qv.2) ++ "\x7d"

/-- JSON rendering of a source row with its keys in sorted order. -/
def serializeRegistro (r : Registro) : String :=
  "\x7b" ++ jstr "ente" ++ ":" ++ jstr r.ente
  ++ "," ++ jstr "fecha_egreso" ++ ":" ++ jopt r.fecha_egreso
  ++ "," ++ jstr "fecha_ingreso" ++ ":" ++ jopt r.fecha_ingreso
  ++ "," ++ jstr "monto" ++ ":" ++ jopt r.monto
  ++ "," ++ jstr "nombre" ++ ":" ++ jstr r.nombre
  ++ "," ++ jstr "puesto" ++ ":" ++ jstr r.puesto
  ++ "," ++ jstr "qnas" ++ ":" ++ serializeQnas r.qnas ++ "\x7d"

/-- Canonical JSON serialization of a finding, modeling json.dumps with
sort_keys=True in comparar_con_historico: keys emitted in sorted order, and a
dict without a fecha_comun key simply omits it. -/
def serializeHallazgo (h : Hallazgo) : String :=
  "\x7b" ++ (jstr "descripcion" ++ ":" ++ jstr h.descripcion
  ++ "," ++ jstr "entes" ++ ":[" ++ String.intercalate "," (h.entes.map jstr) ++ "]"
  ++ "," ++ jstr "estado" ++ ":" ++ jstr h.estado
  ++ (match h.fecha_comun with
      | none => ""
      | some f => "," ++ jstr "fecha_comun" ++ ":" ++ jstr f)
  ++ "," ++ jstr "nombre" ++ ":" ++ jstr h.nombre
  ++ "," ++ jstr "registros" ++ ":[" ++ String.intercalate "," (h.registros.map serializeRegistro) ++ "]"
  ++ "," ++ jstr "rfc" ++ ":" ++ jstr h.rfc
  ++ "," ++ jstr "solventacion" ++ ":" ++ jstr h.solventacion
  ++ "," ++ jstr "tipo_patron" ++ ":" ++ jstr h.tipo_patron ++ "\x7d")

/-- DatabaseManager._hash_text is the SHA-256 hex digest of the text. The
digest is modeled as the identity function: the theorems rely only on the
hash being a deterministic function of its input with nonempty output, which
is the sole property of SHA-256 the claims use. -/
def hash_text (text : String) : String := text

/-- The hash_firma assigned to a finding by comparar_con_historico: the hash
of its canonical serialization. -/
def hashOf (h : Hallazgo) : String := hash_text (serializeHallazgo h)

/-- One row of the laboral table, in insertion (id) order inside a list.
datos keeps the decoded finding; the source stores its JSON text, and the
serialization is a function, so equality of structured rows models
byte-identity of the stored rows. -/
structure LabRow where
  tipo_analisis : String
  rfc : String
  datos : Hallazgo
  hash_firma : String
deriving DecidableEq

/-- The set of hashes already present, modeling the comprehension over
SELECT hash_firma FROM laboral that keeps only truthy values
(core/database.py 226-227). -/
def existentesOf (tabla : List LabRow) : List String :=
  (tabla.map (·.hash_firma)).filter (fun h => !(h == ""))

/-- DatabaseManager.comparar_con_historico (core/database.py 223-239): hash
every incoming finding and partition against the table hash set. The first
component pairs each genuinely new finding with its hash (the source writes
it into the dict); then come the repeated findings and their count. -/
def comparar_con_historico (tabla : List LabRow) (nuevos : List Hallazgo) :
    List (Hallazgo × String) × List Hallazgo × Nat :=
  let existentes := existentesOf tabla
  let nuevos_validos := (nuevos.filter fun r => !(existentes.contains (hashOf r))).map
    fun r => (r, hashOf r)
  let repetidos := nuevos.filter fun r => existentes.contains (hashOf r)
  (nuevos_validos, repetidos, repetidos.length)

/-- The INSERT performed by guardar_resultados for one finding. -/
def mkLabRow (r : Hallazgo × String) : LabRow :=
  { tipo_analisis := r.1.tipo_patron, rfc := r.1.rfc, datos := r.1, hash_firma := r.2 }

/-- The insert loop of guardar_resultados: an insert whose hash_firma equals
the hash_firma of a row already in the table violates the UNIQUE constraint,
raises sqlite3.IntegrityError and is skipped (hashes here are always nonempty
strings, so the SQLite rule that NULLs never conflict does not arise). -/
def guardar_go (tabla : List LabRow) (count : Nat) :
    List (Hallazgo × String) → List LabRow × Nat
  | [] => (tabla, count)
  | r :: rs =>
    if (tabla.map (·.hash_firma)).contains r.2 then guardar_go tabla count rs
    else guardar_go (tabla ++ [mkLabRow r]) (count + 1) rs

/-- DatabaseManager.guardar_resultados (core/database.py 241-263). The Python
function returns only the integer count; the table after the inserts is
returned as the first component to model the side effect on the store. -/
def guardar_resultados (tabla : List LabRow) (resultados : List (Hallazgo × String)) :
    List LabRow × Nat :=
  guardar_go tabla 0 resultados

/-- The persistence phase of one upload (app.py 208-209): compare the batch
with history, then save the new findings. Returns the table after the call
and the saved count (the nuevos field of the response). -/
def ingest (tabla : List LabRow) (findings : List Hallazgo) : List LabRow × Nat :=
  guardar_resultados tabla (comparar_con_historico tabla findings).1

/-- The merged per-RFC record returned by obtener_resultados_por_rfc. -/
structure Merged where
  rfc : String
  nombre : String
  entes : List String
  registros : List Registro
  estado : String
  solventacion : String
deriving DecidableEq

/-- The rows of the laboral table whose stored finding carries this RFC (the
SQL compares UPPER of the json_extract of datos with UPPER of the argument),
in ascending id order. Rows whose JSON fails to decode are skipped by the
source; datos is already structured here. -/
def matchingDatos (tabla : List LabRow) (rfc : String) : List Hallazgo :=
  (tabla.filter fun row => sqlUpper row.datos.rfc == sqlUpper rfc).map (·.datos)

/-- The deduplication key of obtener_resultados_por_rfc (core/database.py
313-314): the tuple of ente, puesto, monto, fecha_ingreso, fecha_egreso. -/
def regKey (r : Registro) : String × String × Cell × Option String × Option String :=
  (r.ente, r.puesto, r.monto, r.fecha_ingreso, r.fecha_egreso)

/-- The vistos loop of obtener_resultados_por_rfc: keep each registro whose
key has not been seen yet. -/
def dedupRegistros (vistos : List (String × String × Cell × Option String × Option String)) :
    List Registro → List Registro
  | [] => []
  | r :: rs =>
    if vistos.contains (regKey r) then dedupRegistros vistos rs
    else r :: dedupRegistros (regKey r :: vistos) rs

/-- DatabaseManager.obtener_resultados_por_rfc (core/database.py 288-326).
The decoded rows are ordered by id DESC, so the head of registros is the
newest row and its last element the oldest. Python list(set(...)) for entes
iterates a set in unspecified order; the distinct values are modeled in a
fixed order and the theorems use membership only. -/
def obtener_resultados_por_rfc (tabla : List LabRow) (rfc : String) : Option Merged :=
  let registros := (matchingDatos tabla rfc).reverse
  if registros.isEmpty then none
  else
    some
      { rfc := rfc
      , nombre := ((registros.head?).map (·.nombre)).getD ""
      , entes := (registros.flatMap (·.entes)).dedup
      , registros := dedupRegistros [] (registros.flatMap (·.registros))
      , estado := ((registros.getLast?).map (·.estado)).getD "Sin valoración"
      , solventacion := ((registros.getLast?).map (·.solventacion)).getD "" }

/-- Bool test that pat occurs at the start of l. -/
def leadsWith : List Char → List Char → Bool
  | [], _ => true
  | _ :: _, [] => false
  | a :: as, b :: bs => a == b && leadsWith as bs

/-- Bool test that pat occurs contiguously somewhere in l. -/
def containsRun (pat : List Char) : List Char → Bool
  | [] => pat.isEmpty
  | c :: tl => leadsWith pat (c :: tl) || containsRun pat tl

/-- DatabaseManager.obtener_resultados_paginados (core/database.py 265-286).
A table row is its raw datos text paired with its decoded finding (none
models json.loads raising, which the source skips). The LIKE filter with the
percent-wrapped filtro is modeled as case-insensitive substring containment
(LIKE is case-insensitive for ASCII; wildcards inside the filter text are not
modeled). A pagina of 0 yields a negative SQL OFFSET, which SQLite treats as
0, exactly as the Nat subtraction does here. Rows come back in id DESC order,
the reverse of insertion order. -/
def obtener_resultados_paginados (tabla : List (String × Option Hallazgo))
    (filtro : Option String) (pagina limite : Nat) : List Hallazgo × Nat :=
  let offset := (pagina - 1) * limite
  let filtered : List (String × Option Hallazgo) :=
    match filtro with
    | some f => tabla.filter fun row => containsRun (sqlUpper f).data (sqlUpper row.1).data
    | none => tabla
  let pageRows := (filtered.reverse.drop offset).take limite
  let resultados := pageRows.filterMap (·.2)
  (resultados, resultados.length)

/-- One row of the solventaciones table; actualizado is the row timestamp
(UNIQUE on the rfc-ente pair is an invariant of the real table). -/
structure Solv where
  rfc : String
  ente : String
  estado : String
  comentario : String
  actualizado : Nat
deriving DecidableEq

/-- DatabaseManager.actualizar_solventacion (core/database.py 346-365):
Python-falsy ente and estado (None or the empty string, both modeled as the
empty string) are defaulted, then the INSERT ON CONFLICT(rfc, ente) DO UPDATE
runs; now models CURRENT_TIMESTAMP, and the returned rowcount of the upsert
is 1. -/
def actualizar_solventacion (tabla : List Solv) (now : Nat)
    (rfc estado comentario ente : String) : List Solv × Nat :=
  let ente2 := if ente = "" then "GENERAL" else ente
  let estado2 := if estado = "" then "Sin valoración" else estado
  if tabla.any (fun s => s.rfc == rfc && s.ente == ente2) then
    (tabla.map fun s =>
      if s.rfc == rfc && s.ente == ente2 then
        { s with estado := estado2, comentario := comentario, actualizado := now }
      else s, 1)
  else
    (tabla ++ [{ rfc := rfc, ente := ente2, estado := estado2, comentario := comentario
               , actualizado := now }], 1)

/-- One step of the max-timestamp scan. -/
def maxStep (acc : Option Solv) (s : Solv) : Option Solv :=
  match acc with
  | none => some s
  | some a => if a.actualizado < s.actualizado then some s else some a

/-- The row with maximal actualizado, first among ties, modeling ORDER BY
actualizado DESC LIMIT 1; under the UNIQUE(rfc, ente) constraint at most one
row matches the WHERE clause, so the tie order never matters. -/
def maxActualizado (l : List Solv) : Option Solv := l.foldl maxStep none

/-- DatabaseManager.get_estado_rfc_ente (core/database.py 370-383); Python
falsy arguments (modeled as the empty string) short-circuit to None. -/
def get_estado_rfc_ente (tabla : List Solv) (rfc ente_clave : String) : Option String :=
  if rfc = "" || ente_clave = "" then none
  else (maxActualizado (tabla.filter fun s => s.rfc == rfc && s.ente == ente_clave)).map (·.estado)

/-- app.py _allowed_all (lines 72-73): some user token sanitizes to TODOS. -/
def allowed_all (entes_usuario : List String) : Bool :=
  entes_usuario.any fun e => sanitize_text e == "TODOS"

/-- Modeled from the spec: has_full_access as the specification words it —
true if any token, normalized (trim, uppercase, accent strip), equals TODOS
or equals ALL. Stated only to compare the spec contract with allowed_all. -/
def has_full_access (tokens : List String) : Bool :=
  tokens.any fun e => sanitize e == "TODOS" || sanitize e == "ALL"

/-- One row of the entes catalog (the fields used by resolution/display). -/
structure Ente where
  clave : String
  nombre : String
  siglas : String
deriving DecidableEq

/-- DatabaseManager.normalizar_ente_clave (core/database.py 205-218): sanitize
the label, then take the clave of the first catalog row any of whose
UPPER(siglas), UPPER(nombre) or UPPER(clave) equals it (SQL UPPER being
ASCII-only). -/
def normalizar_ente_clave (catalogo : List Ente) (valor : String) : Option String :=
  if valor = "" then none
  else
    let val := sanitize valor
    (catalogo.find? fun e =>
      sqlUpper e.siglas == val || sqlUpper e.nombre == val || sqlUpper e.clave == val).map (·.clave)

/-- The entry the app.py _entes_cache builds for one catalog row: clave,
siglas and nombre, each trimmed and uppercased (app.py 95-108). The cache is
a dict keyed by the normalized clave; claves are UNIQUE in the schema, so the
dict holds one entry per row, scanned in insertion order. -/
def cacheEntry (e : Ente) : String × String × String :=
  (sanitize_text e.clave, sanitize_text e.siglas, sanitize_text e.nombre)

/-- The return of the _ente_display loop body: the siglas of the matched
cache entry, else its nombre, else the original label; the none case is the
fallthrough return v of the source. -/
def displayPick (s0 : String) : Option Ente → String
  | some e =>
    if (cacheEntry e).2.1 ≠ "" then (cacheEntry e).2.1
    else if (cacheEntry e).2.2 ≠ "" then (cacheEntry e).2.2
    else s0
  | none => s0

/-- app.py _ente_display (lines 141-148): find the first cache entry among
whose clave, siglas and nombre the sanitized label occurs; display its siglas,
else its nombre, else the original label. The argument is none when entity
resolution returned Python None, which is falsy like the empty string. -/
def ente_display (catalogo : List Ente) (v : Option String) : String :=
  match v with
  | none => "Sin Ente"
  | some s0 =>
    if s0 = "" then "Sin Ente"
    else
      displayPick s0 (catalogo.find? fun e =>
        sanitize_text s0 == (cacheEntry e).1 || sanitize_text s0 == (cacheEntry e).2.1
          || sanitize_text s0 == (cacheEntry e).2.2)

/-- The three seed entities inserted by poblar_datos_iniciales
(core/database.py 105-114). -/
def seedEntes : List Ente :=
  [ { clave := "ENTE_00001", nombre := "Secretaría de Gobierno", siglas := "SEGOB" }
  , { clave := "ENTE_00002", nombre := "Secretaría de Finanzas", siglas := "SEFIN" }
  , { clave := "ENTE_00003", nombre := "Secretaría de Educación Pública", siglas := "SEPE" } ]

/-- The three labels of a catalog row. -/
def labels (e : Ente) : List String := [e.clave, e.nombre, e.siglas]

/-- A label already in normal form: fixed by every normalizer in play. -/
def Clean (s : String) : Prop := sanitize s = s ∧ sqlUpper s = s ∧ sanitize_text s = s

/-- Decidability of Clean, so concrete catalogs can be checked by decide. -/
instance (s : String) : Decidable (Clean s) := by
  unfold Clean
  infer_instance

/-- A concrete source row: active in QNA3 at ENTE_00003. -/
def regA : Registro :=
  { ente := "ENTE_00003", nombre := "JUAN PEREZ", puesto := "ANALISTA"
  , fecha_ingreso := some "2025-01-01", fecha_egreso := none
  , qnas := [("QNA3", some "1")], monto := some "100.5" }

/-- A concrete source row: active in QNA3 at ENTE_00002. -/
def regB : Registro :=
  { ente := "ENTE_00002", nombre := "JUAN PEREZ", puesto := "AUDITOR"
  , fecha_ingreso := some "2025-02-01", fecha_egreso := none
  , qnas := [("QNA3", some "SI")], monto := none }

/-- A batch with one RFC paid by two entities in the same quincena. -/
def mapEx : List (String × List Registro) := [("CUPU800825569", [regA, regB])]

/-- The single cross finding the detector emits on mapEx (headD default
unreachable). -/
def hallEx : Hallazgo :=
  (cruces_quincenales 2025 mapEx).headD
    { rfc := "", nombre := "", entes := [], fecha_comun := none, tipo_patron := ""
    , descripcion := "", registros := [], estado := "", solventacion := "" }

/-- A batch with a single RFC seen at one entity only. -/
def mapSolo : List (String × List Registro) := [("AAAA800101AAA", [regA])]

/-- An older persisted finding for the RFC of mapEx. -/
def hallOld : Hallazgo :=
  { rfc := "CUPU800825569", nombre := "JUAN PEREZ"
  , entes := ["ENTE_00002", "ENTE_00003"], fecha_comun := some "2025Q03"
  , tipo_patron := "CRUCE_ENTRE_ENTES_QNA", descripcion := "d"
  , registros := [regA, regB], estado := "No Solventado", solventacion := "visto" }

/-- A newer finding for the same RFC with a different estado. -/
def hallNew : Hallazgo :=
  { hallOld with fecha_comun := some "2025Q04", estado := "Solventado", solventacion := "ok" }

/-- A laboral table where hallOld was inserted before hallNew. -/
def tablaEx : List LabRow := [mkLabRow (hallOld, hashOf hallOld), mkLabRow (hallNew, hashOf hallNew)]

/-- A pagination table with two decodable rows. -/
def tablaPag : List (String × Option Hallazgo) :=
  [("r1", some hallOld), ("r2", some hallNew)]

/-- A catalog whose labels are already in normal form. -/
def catClean : List Ente :=
  [ { clave := "ENTE_00001", nombre := "SECRETARIA DE GOBIERNO", siglas := "SEGOB" }
  , { clave := "ENTE_00002", nombre := "SECRETARIA DE FINANZAS", siglas := "SEFIN" } ]


/-- Membership is preserved by ordered insertion. -/
theorem mem_insertLe (x a : String) (l : List String) :
    a ∈ insertLe x l ↔ a = x ∨ a ∈ l := by
  induction l with
  | nil => simp [insertLe]
  | cons y ys ih =>
    by_cases h : strLe x y = true
    · simp [insertLe, h]
    · simp [insertLe, h, ih]
      tauto

/-- Membership is preserved by the insertion sort. -/
theorem mem_sortStr (a : String) (l : List String) : a ∈ sortStr l ↔ a ∈ l := by
  induction l with
  | nil => simp [sortStr]
  | cons y ys ih =>
    simp only [sortStr, List.foldr_cons] at *
    rw [mem_insertLe, ih, List.mem_cons]

/-- Ordered insertion preserves distinctness of a list not containing x. -/
theorem nodup_insertLe (x : String) (l : List String) (hx : x ∉ l) (hl : l.Nodup) :
    (insertLe x l).Nodup := by
  induction l with
  | nil => simp [insertLe]
  | cons y ys ih =>
    rw [List.nodup_cons] at hl
    have hxy : x ≠ y := fun he => hx (he ▸ List.mem_cons_self y ys)
    have hxys : x ∉ ys := fun hm => hx (List.mem_cons_of_mem y hm)
    by_cases h : strLe x y = true
    · have he : insertLe x (y :: ys) = x :: y :: ys := by simp [insertLe, h]
      rw [he, List.nodup_cons]
      exact ⟨hx, List.nodup_cons.mpr hl⟩
    · have he : insertLe x (y :: ys) = y :: insertLe x ys := by simp [insertLe, h]
      rw [he, List.nodup_cons]
      refine ⟨?_, ih hxys hl.2⟩
      rw [mem_insertLe]
      push_neg
      exact ⟨fun he2 => hxy he2.symm, hl.1⟩

/-- The insertion sort preserves distinctness. -/
theorem nodup_sortStr (l : List String) (hl : l.Nodup) : (sortStr l).Nodup := by
  induction l with
  | nil => simp [sortStr]
  | cons y ys ih =>
    rw [List.nodup_cons] at hl
    simp only [sortStr, List.foldr_cons]
    exact nodup_insertLe y _ (fun hm => hl.1 ((mem_sortStr y ys).mp hm)) (ih hl.2)

/-- Code-point comparison is asymmetric. -/
theorem lexLt_asymm (as bs : List Char) (h : lexLt as bs = true) : lexLt bs as = false := by
  induction as generalizing bs with
  | nil =>
    cases bs with
    | nil => simp [lexLt] at h
    | cons b bs => simp [lexLt]
  | cons a as ih =>
    cases bs with
    | nil => simp [lexLt] at h
    | cons b bs =>
      by_cases hab : a.toNat < b.toNat
      · have hba : ¬ b.toNat < a.toNat := Nat.lt_asymm hab
        simp [lexLt, hab, hba]
      · by_cases hba : b.toNat < a.toNat
        · simp [lexLt, hab, hba] at h
        · simp only [lexLt, hab, hba, if_false] at h ⊢
          exact ih bs h

/-- Python string order is total. -/
theorem strLe_total (a b : String) (h : strLe a b = false) : strLe b a = true := by
  unfold strLe at *
  rw [Bool.not_eq_false'] at h
  rw [Bool.not_eq_true', lexLt_asymm _ _ h]

/-- The head of an ordered insertion is the inserted element or the old head. -/
theorem head_insertLe (x : String) (l : List String) :
    (insertLe x l).head? = some x ∨ (insertLe x l).head? = l.head? := by
  cases l with
  | nil => left; rfl
  | cons y ys =>
    by_cases h : strLe x y = true
    · left; simp [insertLe, h]
    · right; simp [insertLe, h]

/-- Inserting into a list sorted by strLe keeps it sorted. -/
theorem chain_insertLe (x : String) (l : List String)
    (hl : List.Chain' (fun a b => strLe a b = true) l) :
    List.Chain' (fun a b => strLe a b = true) (insertLe x l) := by
  induction l with
  | nil => simp [insertLe]
  | cons y ys ih =>
    rw [List.chain'_cons'] at hl
    by_cases h : strLe x y = true
    · have he : insertLe x (y :: ys) = x :: y :: ys := by simp [insertLe, h]
      rw [he, List.chain'_cons]
      exact ⟨h, List.chain'_cons'.mpr hl⟩
    · have he : insertLe x (y :: ys) = y :: insertLe x ys := by simp [insertLe, h]
      rw [he, List.chain'_cons']
      refine ⟨?_, ih hl.2⟩
      intro z hz
      rcases head_insertLe x ys with hh | hh
      · rw [hh, Option.mem_some_iff] at hz
        rw [← hz]
        exact strLe_total x y (by simpa using h)
      · rw [hh] at hz
        exact hl.1 z hz

/-- The insertion sort sorts by Python string order. -/
theorem chain_sortStr (l : List String) :
    List.Chain' (fun a b => strLe a b = true) (sortStr l) := by
  induction l with
  | nil => simp [sortStr]
  | cons y ys ih =>
    simpa only [sortStr, List.foldr_cons] using chain_insertLe y _ ih

/-- Membership in a sorted set of strings. -/
theorem mem_sortedSet (a : String) (l : List String) : a ∈ sortedSet l ↔ a ∈ l := by
  rw [sortedSet, mem_sortStr, List.mem_dedup]

/-- A sorted set of strings is distinct. -/
theorem nodup_sortedSet (l : List String) : (sortedSet l).Nodup :=
  nodup_sortStr _ (List.nodup_dedup l)

/-- A sorted set of strings is in ascending order. -/
theorem chain_sortedSet (l : List String) :
    List.Chain' (fun a b => strLe a b = true) (sortedSet l) :=
  chain_sortStr _

/-- Claim C3: es_activo is false on a missing cell; on a present cell it is
true exactly when the trimmed uppercase form avoids every inactive marker;
and it takes the claimed values on the concrete cells of the specification. -/
theorem c3_es_activo_spec :
    es_activo none = false ∧
    (∀ s : String, es_activo (some s) = true ↔ stripUpper s ∉ inactivos) ∧
    es_activo (some "") = false ∧ es_activo (some "0") = false ∧
    es_activo (some "0.0") = false ∧ es_activo (some "NO") = false ∧
    es_activo (some "N/A") = false ∧ es_activo (some "NA") = false ∧
    es_activo (some "NONE") = false ∧
    es_activo (some "SI") = true ∧ es_activo (some "1") = true ∧
    es_activo (some "100.50") = true := by
  refine ⟨rfl, fun s => ?_, by decide, by decide, by decide, by decide, by decide,
    by decide, by decide, by decide, by decide, by decide⟩
  simp [es_activo]

/-- Round trip between a quincena number and the digits of its column name,
for the 24 quincenas of a fiscal year. -/
theorem qnaNum_qnaName : ∀ n ∈ List.range 25, qnaNum (qnaName n) = n := by decide

/-- Claim C1: every finding emitted by the cross detector (each carries
tipo_patron CRUCE_ENTRE_ENTES_QNA) lists at least two distinct entity claves
in ascending code-point order, and every listed ente is the ente of at least
one registro of the finding that is active in the quincena QNAn named by its
fecha_comun (the year followed by Q and the zero-padded n). In particular,
rows of a single entity can never produce a cross finding by themselves. The
hypothesis is the ingestion invariant that quincena column names match
QNA1..QNA24. -/
theorem c1_cruces_invariant (anio : Nat) (m : List (String × List Registro))
    (hwf : ∀ p ∈ m, ∀ r ∈ p.2, ∀ qv ∈ r.qnas, ∃ n ∈ List.range 25, 1 ≤ n ∧ qv.1 = qnaName n) :
    ∀ h ∈ cruces_quincenales anio m, h.tipo_patron = "CRUCE_ENTRE_ENTES_QNA" →
      2 ≤ h.entes.length ∧ h.entes.Nodup ∧
      List.Chain' (fun a b => strLe a b = true) h.entes ∧
      ∃ n, 1 ≤ n ∧ n ≤ 24 ∧ h.fecha_comun = some (fechaComunQ anio n) ∧
        ∀ e ∈ h.entes, ∃ r ∈ h.registros, r.ente = e ∧
          es_activo (getQna r (qnaName n)) = true := by
  intro h hm _
  simp only [cruces_quincenales] at hm
  rw [List.mem_flatMap] at hm
  obtain ⟨p, hp, hin⟩ := hm
  by_cases hlen : p.2.length < 2
  · rw [if_pos hlen] at hin
    cases hin
  · rw [if_neg hlen, List.mem_flatMap] at hin
    obtain ⟨qna, hqna, hin2⟩ := hin
    by_cases hgt :
        (sortedSet ((p.2.filter fun r => es_activo (getQna r qna)).map (·.ente))).length > 1
    · rw [if_pos hgt, List.mem_singleton] at hin2
      subst hin2
      refine ⟨hgt, nodup_sortedSet _, chain_sortedSet _, ?_⟩
      rw [mem_sortedSet, List.mem_filterMap] at hqna
      obtain ⟨qv, hqv, hfq⟩ := hqna
      by_cases hact : es_activo qv.2 = true
      · rw [if_pos hact, Option.some_inj] at hfq
        rw [List.mem_flatMap] at hqv
        obtain ⟨r, hr, hqvr⟩ := hqv
        obtain ⟨n, hn25, hn1, hqeq⟩ := hwf p hp r hr qv hqvr
        have hqn : qna = qnaName n := hfq.symm.trans hqeq
        refine ⟨n, hn1, Nat.lt_succ_iff.mp (List.mem_range.mp hn25), ?_, ?_⟩
        · show some (fechaComunQ anio (qnaNum qna)) = some (fechaComunQ anio n)
          rw [hqn, qnaNum_qnaName n hn25]
        · intro e he
          rw [mem_sortedSet, List.mem_map] at he
          obtain ⟨r2, hr2, hente⟩ := he
          have hr2f := hr2
          rw [List.mem_filter] at hr2f
          refine ⟨r2, hr2, hente, ?_⟩
          rw [← hqn]
          exact hr2f.2
      · rw [if_neg hact] at hfq
        cases hfq
    · rw [if_neg hgt] at hin2
      cases hin2

/-- Witness for claim C1: the invariant instantiated on the concrete batch
mapEx, whose single cross finding is hallEx. -/
theorem c1_witness :
    2 ≤ hallEx.entes.length ∧ hallEx.entes.Nodup ∧
    List.Chain' (fun a b => strLe a b = true) hallEx.entes ∧
    ∃ n, 1 ≤ n ∧ n ≤ 24 ∧ hallEx.fecha_comun = some (fechaComunQ 2025 n) ∧
      ∀ e ∈ hallEx.entes, ∃ r ∈ hallEx.registros, r.ente = e ∧
        es_activo (getQna r (qnaName n)) = true :=
  c1_cruces_invariant 2025 mapEx (by decide) hallEx (by decide) (by decide)

/-- Filtering a key-distinct association list for the key of a member yields
exactly that member. -/
theorem filter_key_singleton (p : String × List Registro)
    (l : List (String × List Registro))
    (hnd : (l.map Prod.fst).Nodup) (hp : p ∈ l) :
    l.filter (fun q => q.1 == p.1) = [p] := by
  induction l with
  | nil => cases hp
  | cons a tl ih =>
    rw [List.map_cons, List.nodup_cons] at hnd
    rcases List.mem_cons.mp hp with h | h
    · subst h
      rw [List.filter_cons_of_pos (by simp)]
      have : tl.filter (fun q => q.1 == p.1) = [] := by
        rw [List.filter_eq_nil_iff]
        intro q hq hqe
        exact hnd.1 (by
          rw [beq_iff_eq] at hqe
          exact hqe ▸ List.mem_map.mpr ⟨q, hq, rfl⟩)
      rw [this]
    · have hne : (a.1 == p.1) = false := by
        rw [beq_eq_false_iff_ne]
        intro he
        exact hnd.1 (he ▸ List.mem_map.mpr ⟨p, h, rfl⟩)
      rw [List.filter_cons, hne]
      simpa using ih hnd.2 h

/-- Claim C6 counterexample: at a concrete cross-free batch the emitted
traceability record carries no fecha_comun value at all (the dict lacks the
key), not the sentinel string SIN_DUPLICIDAD the claim asserts. -/
theorem c6_counterexample :
    (empleados_sin_cruce mapSolo []).map (·.fecha_comun) = [none] ∧
    (empleados_sin_cruce mapSolo []).map (·.fecha_comun) ≠ [some "SIN_DUPLICIDAD"] := by
  decide

/-- Claim C6 (amended): for each RFC of the batch that appears in no finding,
exactly one traceability record is emitted; it has tipo_patron
SIN_DUPLICIDAD, no fecha_comun key (none, rather than the claimed sentinel
string), entes the sorted distinct entity claves of the rows of the RFC,
registros all its rows, and estado Sin valoración. -/
theorem c6_sin_cruce_spec (entes_rfc : List (String × List Registro))
    (hallazgos : List Hallazgo) (hnd : (entes_rfc.map Prod.fst).Nodup) :
    ∀ p ∈ entes_rfc, p.1 ∉ hallazgos.map (·.rfc) →
      (empleados_sin_cruce entes_rfc hallazgos).filter (fun h => h.rfc == p.1) =
        [sinCruceDe p] ∧
      (sinCruceDe p).tipo_patron = "SIN_DUPLICIDAD" ∧
      (sinCruceDe p).fecha_comun = none ∧
      (sinCruceDe p).registros = p.2 ∧
      (sinCruceDe p).estado = "Sin valoración" ∧
      (sinCruceDe p).entes.Nodup ∧
      List.Chain' (fun a b => strLe a b = true) (sinCruceDe p).entes ∧
      (∀ e, e ∈ (sinCruceDe p).entes ↔ e ∈ p.2.map (·.ente)) := by
  intro p hp hno
  refine ⟨?_, rfl, rfl, rfl, rfl, nodup_sortedSet _, chain_sortedSet _,
    fun e => mem_sortedSet e _⟩
  simp only [empleados_sin_cruce, List.filter_map]
  have hkeys :
      ((entes_rfc.filter fun q => !((hallazgos.map (·.rfc)).contains q.1)).map Prod.fst).Nodup :=
    List.Nodup.sublist ((List.filter_sublist _).map Prod.fst) hnd
  have hpin : p ∈ entes_rfc.filter fun q => !((hallazgos.map (·.rfc)).contains q.1) := by
    rw [List.mem_filter]
    exact ⟨hp, by simpa using hno⟩
  exact congrArg (List.map sinCruceDe) (filter_key_singleton p _ hkeys hpin)

/-- Witness for claim C6: the amended statement instantiated on the concrete
cross-free batch mapSolo. -/
theorem c6_witness :
    (empleados_sin_cruce mapSolo []).filter
        (fun h => h.rfc == ("AAAA800101AAA", [regA]).1) =
      [sinCruceDe ("AAAA800101AAA", [regA])] ∧
    (sinCruceDe ("AAAA800101AAA", [regA])).tipo_patron = "SIN_DUPLICIDAD" ∧
    (sinCruceDe ("AAAA800101AAA", [regA])).fecha_comun = none ∧
    (sinCruceDe ("AAAA800101AAA", [regA])).registros = ("AAAA800101AAA", [regA]).2 ∧
    (sinCruceDe ("AAAA800101AAA", [regA])).estado = "Sin valoración" ∧
    (sinCruceDe ("AAAA800101AAA", [regA])).entes.Nodup ∧
    List.Chain' (fun a b => strLe a b = true) (sinCruceDe ("AAAA800101AAA", [regA])).entes ∧
    (∀ e, e ∈ (sinCruceDe ("AAAA800101AAA", [regA])).entes ↔
      e ∈ ("AAAA800101AAA", [regA]).2.map (·.ente)) :=
  c6_sin_cruce_spec mapSolo [] (by decide) ("AAAA800101AAA", [regA]) (by decide) (by decide)

/-- The canonical serialization of a finding is nonempty. -/
theorem serializeHallazgo_ne_empty (h : Hallazgo) : serializeHallazgo h ≠ "" := by
  intro he
  have h2 : (serializeHallazgo h).data = [] := by rw [he]
  rw [serializeHallazgo, String.data_append] at h2
  rcases List.append_eq_nil.mp h2 with ⟨h3, _⟩
  exact absurd h3 (by decide)

/-- The hash of a finding is a truthy (nonempty) string. -/
theorem hashOf_ne_empty (h : Hallazgo) : hashOf h ≠ "" :=
  serializeHallazgo_ne_empty h

/-- The insert loop only adds rows: hashes present in the table stay. -/
theorem guardar_go_hash_mono (res : List (Hallazgo × String)) :
    ∀ (tabla : List LabRow) (count : Nat) (x : String),
      x ∈ tabla.map (·.hash_firma) → x ∈ (guardar_go tabla count res).1.map (·.hash_firma) := by
  induction res with
  | nil => intro tabla count x hx; exact hx
  | cons r rs ih =>
    intro tabla count x hx
    by_cases hc : (tabla.map (·.hash_firma)).contains r.2 = true
    · simp only [guardar_go]
      rw [if_pos hc]
      exact ih tabla count x hx
    · simp only [guardar_go]
      rw [if_neg hc]
      refine ih _ _ x ?_
      rw [List.map_append]
      exact List.mem_append_left _ hx

/-- After the insert loop, the hash of every processed finding is in the
table: it was either inserted or already present. -/
theorem guardar_go_hash_covers (res : List (Hallazgo × String)) :
    ∀ (tabla : List LabRow) (count : Nat) (r : Hallazgo × String), r ∈ res →
      r.2 ∈ (guardar_go tabla count res).1.map (·.hash_firma) := by
  induction res with
  | nil => intro _ _ r hr; cases hr
  | cons a rs ih =>
    intro tabla count r hr
    rcases List.mem_cons.mp hr with he | hm
    · subst he
      by_cases hc : (tabla.map (·.hash_firma)).contains r.2 = true
      · simp only [guardar_go]
        rw [if_pos hc]
        exact guardar_go_hash_mono rs tabla count r.2 (by simpa using hc)
      · simp only [guardar_go]
        rw [if_neg hc]
        refine guardar_go_hash_mono rs _ _ r.2 ?_
        rw [List.map_append]
        exact List.mem_append_right _ (by simp [mkLabRow])
    · by_cases hc : (tabla.map (·.hash_firma)).contains a.2 = true
      · simp only [guardar_go]
        rw [if_pos hc]
        exact ih tabla count r hm
      · simp only [guardar_go]
        rw [if_neg hc]
        exact ih _ _ r hm

/-- After one ingest, the hash of every finding of the batch is among the
truthy hashes of the table. -/
theorem ingest_covers (tabla : List LabRow) (findings : List Hallazgo) (f : Hallazgo)
    (hf : f ∈ findings) :
    hashOf f ∈ existentesOf (ingest tabla findings).1 := by
  have hne := hashOf_ne_empty f
  rw [existentesOf, List.mem_filter]
  refine ⟨?_, by simpa using hne⟩
  rw [ingest, guardar_resultados]
  by_cases hc : (existentesOf tabla).contains (hashOf f) = true
  · have h1 : hashOf f ∈ tabla.map (·.hash_firma) := by
      have h2 : hashOf f ∈ existentesOf tabla := by simpa using hc
      rw [existentesOf, List.mem_filter] at h2
      exact h2.1
    exact guardar_go_hash_mono _ tabla 0 _ h1
  · have h2 : (f, hashOf f) ∈ (comparar_con_historico tabla findings).1 := by
      simp only [comparar_con_historico]
      refine List.mem_map.mpr ⟨f, List.mem_filter.mpr ⟨hf, ?_⟩, rfl⟩
      simpa using hc
    exact guardar_go_hash_covers _ tabla 0 (f, hashOf f) h2

/-- Claim C2: ingesting the same batch of findings twice is idempotent. The
second call classifies every finding as repeated (its hash is already a
hash_firma of the table), so nuevos_validos is empty, nothing is inserted,
the saved count is 0, and the laboral table is left identical (the
serialization being deterministic, identical rows mean byte-identical stored
rows). -/
theorem c2_ingest_idempotent (tabla : List LabRow) (findings : List Hallazgo) :
    ingest (ingest tabla findings).1 findings = ((ingest tabla findings).1, 0) ∧
    (comparar_con_historico (ingest tabla findings).1 findings).1 = [] := by
  have hemp : (comparar_con_historico (ingest tabla findings).1 findings).1 = [] := by
    simp only [comparar_con_historico]
    rw [List.map_eq_nil_iff, List.filter_eq_nil_iff]
    intro f hf
    have hcov := ingest_covers tabla findings f hf
    simp [hcov]
  refine ⟨?_, hemp⟩
  rw [ingest, hemp]
  rfl

/-- Claim C4 (code bug): guardar_resultados performs the inserts and silently
skips uniqueness violations, but its Python return value is the single
integer count — modeled as the second component, the first component standing
for the table side effect — and not the pair that upload_laboral (app.py 209)
unpacks; at a one-finding batch the returned value is the bare count 1, and 0
for an empty batch. -/
theorem c4_guardar_bare_count :
    (guardar_resultados [] [(hallEx, hashOf hallEx)]).2 = 1 ∧
    (guardar_resultados [] []).2 = 0 := by
  exact ⟨rfl, rfl⟩

/-- Claim C10: paginated_read returns as total the length of the very page it
returns (decode failures dropped), so total never exceeds limite; the last
two conjuncts exhibit this on a concrete two-row table read with limite 1,
where the table-wide count is 2 but total is 1. -/
theorem c10_paginated_total (tabla : List (String × Option Hallazgo)) (filtro : Option String)
    (pagina limite : Nat) :
    (obtener_resultados_paginados tabla filtro pagina limite).2 =
      (obtener_resultados_paginados tabla filtro pagina limite).1.length ∧
    (obtener_resultados_paginados tabla filtro pagina limite).2 ≤ limite ∧
    (obtener_resultados_paginados tablaPag none 1 1).2 = 1 ∧
    tablaPag.length = 2 := by
  refine ⟨rfl, ?_, rfl, rfl⟩
  simp only [obtener_resultados_paginados]
  exact le_trans (List.length_filterMap_le _ _) (List.length_take_le _ _)

/-- Any property holding on a list and on the accumulator holds on the result
of the max-timestamp fold. -/
theorem maxStep_fold_prop (P : Solv → Prop) :
    ∀ (l : List Solv) (acc : Option Solv),
      (∀ x ∈ l, P x) → (∀ a ∈ acc, P a) →
      ∀ r, l.foldl maxStep acc = some r → P r := by
  intro l
  induction l with
  | nil =>
    intro acc _ hacc r hr
    rw [List.foldl_nil] at hr
    exact hacc r (by rw [hr]; exact Option.mem_some_iff.mpr rfl)
  | cons s tl ih =>
    intro acc hl hacc r hr
    rw [List.foldl_cons] at hr
    refine ih _ (fun x hx => hl x (List.mem_cons_of_mem s hx)) ?_ r hr
    intro a ha
    have hs : P s := hl s (List.mem_cons_self s tl)
    cases acc with
    | none =>
      rw [maxStep, Option.mem_some_iff] at ha
      exact ha ▸ hs
    | some b =>
      rw [maxStep] at ha
      by_cases hlt : b.actualizado < s.actualizado
      · rw [if_pos hlt, Option.mem_some_iff] at ha
        exact ha ▸ hs
      · rw [if_neg hlt, Option.mem_some_iff] at ha
        exact ha ▸ hacc b (Option.mem_some_iff.mpr rfl)

/-- The max-timestamp fold of a nonempty list yields a row. -/
theorem maxStep_fold_ne_none :
    ∀ (l : List Solv) (acc : Option Solv), (acc ≠ none ∨ l ≠ []) →
      l.foldl maxStep acc ≠ none := by
  intro l
  induction l with
  | nil =>
    intro acc hacc
    rcases hacc with h | h
    · exact h
    · exact absurd rfl h
  | cons s tl ih =>
    intro acc _
    rw [List.foldl_cons]
    refine ih _ (Or.inl ?_)
    cases acc with
    | none => rw [maxStep]; exact Option.some_ne_none s
    | some b =>
      rw [maxStep]
      by_cases hlt : b.actualizado < s.actualizado
      · rw [if_pos hlt]; exact Option.some_ne_none s
      · rw [if_neg hlt]; exact Option.some_ne_none b

/-- After an upsert with already-resolved nonempty key fields, reading the
estado of the same (rfc, ente) pair returns the written estado. -/
theorem upsert_get_core (tabla : List Solv) (now : Nat) (rfc c ente2 s2 : String)
    (hrfc : rfc ≠ "") (hente : ente2 ≠ "") (hs2 : s2 ≠ "") :
    get_estado_rfc_ente (actualizar_solventacion tabla now rfc s2 c ente2).1 rfc ente2
      = some s2 := by
  have hres : (actualizar_solventacion tabla now rfc s2 c ente2).1 =
      if tabla.any (fun x => x.rfc == rfc && x.ente == ente2) then
        tabla.map fun x =>
          if x.rfc == rfc && x.ente == ente2 then
            { x with estado := s2, comentario := c, actualizado := now }
          else x
      else tabla ++ [{ rfc := rfc, ente := ente2, estado := s2, comentario := c
                     , actualizado := now }] := by
    simp only [actualizar_solventacion, if_neg hente, if_neg hs2]
    split <;> rfl
  rw [hres, get_estado_rfc_ente, if_neg (by simp [hrfc, hente])]
  by_cases hany : tabla.any (fun x => x.rfc == rfc && x.ente == ente2) = true
  · rw [if_pos hany]
    obtain ⟨y, hy, hcy⟩ := List.any_eq_true.mp hany
    have hall : ∀ x ∈ (tabla.map fun x =>
        if x.rfc == rfc && x.ente == ente2 then
          { x with estado := s2, comentario := c, actualizado := now }
        else x).filter (fun x => x.rfc == rfc && x.ente == ente2), x.estado = s2 := by
      intro x hx
      rw [List.mem_filter] at hx
      obtain ⟨hx1, hcx⟩ := hx
      rw [List.mem_map] at hx1
      obtain ⟨y2, hy2, hxy⟩ := hx1
      by_cases hcy2 : (y2.rfc == rfc && y2.ente == ente2) = true
      · rw [if_pos hcy2] at hxy
        rw [← hxy]
      · rw [if_neg hcy2] at hxy
        rw [← hxy] at hcx
        exact absurd hcx hcy2
    have hmem : ({ y with estado := s2, comentario := c, actualizado := now } : Solv) ∈
        (tabla.map fun x =>
          if x.rfc == rfc && x.ente == ente2 then
            { x with estado := s2, comentario := c, actualizado := now }
          else x).filter (fun x => x.rfc == rfc && x.ente == ente2) := by
      rw [List.mem_filter]
      exact ⟨List.mem_map.mpr ⟨y, hy, by rw [if_pos hcy]⟩, hcy⟩
    have hne : (maxActualizado ((tabla.map fun x =>
        if x.rfc == rfc && x.ente == ente2 then
          { x with estado := s2, comentario := c, actualizado := now }
        else x).filter (fun x => x.rfc == rfc && x.ente == ente2))) ≠ none :=
      maxStep_fold_ne_none _ none (Or.inr (List.ne_nil_of_mem hmem))
    obtain ⟨r, hr⟩ := Option.ne_none_iff_exists.mp hne
    have hPr := maxStep_fold_prop (fun x => x.estado = s2) _ none hall
      (by intro a ha; cases ha) r hr.symm
    rw [maxActualizado] at hr
    rw [maxActualizado, ← hr]
    simp [hPr]
  · rw [if_neg hany]
    have hnil : tabla.filter (fun x => x.rfc == rfc && x.ente == ente2) = [] := by
      rw [List.filter_eq_nil_iff]
      intro x hx hc
      rw [Bool.not_eq_true] at hany
      exact absurd (List.any_eq_true.mpr ⟨x, hx, hc⟩) (by rw [hany]; exact Bool.false_ne_true)
    rw [List.filter_append, hnil, List.nil_append]
    simp [maxActualizado, maxStep]

/-- Claim C7 counterexample: the claim quantifies over every rfc, but for the
empty rfc the upsert inserts a row while get_estado short-circuits on its
falsy-rfc guard and returns None, not the written estado. -/
theorem c7_counterexample :
    get_estado_rfc_ente
        (actualizar_solventacion [] 0 "" "Solventado" "c" "ENTE_00001").1 "" "ENTE_00001"
      = none ∧
    get_estado_rfc_ente
        (actualizar_solventacion [] 0 "" "Solventado" "c" "ENTE_00001").1 "" "ENTE_00001"
      ≠ some "Solventado" := by
  constructor
  · rfl
  · intro h
    cases h

/-- Claim C7 (amended): update_solventacion upserts on (rfc, ente),
substituting GENERAL for a null-or-empty ente and Sin valoración for a
null-or-empty estado, and returns rowcount 1; immediately afterwards, for
nonempty rfc, s and e, get_estado returns exactly s — both for an explicit
ente e and, with e null/empty, under the GENERAL key. -/
theorem c7_solventacion_spec (tabla : List Solv) (now : Nat) (rfc s c e : String)
    (hrfc : rfc ≠ "") (hs : s ≠ "") (he : e ≠ "") :
    get_estado_rfc_ente (actualizar_solventacion tabla now rfc s c e).1 rfc e = some s ∧
    (actualizar_solventacion tabla now rfc s c e).2 = 1 ∧
    get_estado_rfc_ente (actualizar_solventacion tabla now rfc s c "").1 rfc "GENERAL"
      = some s := by
  refine ⟨upsert_get_core tabla now rfc c e s hrfc he hs, ?_, ?_⟩
  · simp only [actualizar_solventacion, if_neg he, if_neg hs]
    split <;> rfl
  · have hgen : actualizar_solventacion tabla now rfc s c "" =
        actualizar_solventacion tabla now rfc s c "GENERAL" := rfl
    rw [hgen]
    exact upsert_get_core tabla now rfc c "GENERAL" s hrfc (by decide) hs

/-- Witness for claim C7: the amended statement instantiated at a concrete
update on the empty table. -/
theorem c7_witness :
    get_estado_rfc_ente
        (actualizar_solventacion [] 5 "CUPU800825569" "Solventado" "ok" "ENTE_00002").1
        "CUPU800825569" "ENTE_00002" = some "Solventado" ∧
    (actualizar_solventacion [] 5 "CUPU800825569" "Solventado" "ok" "ENTE_00002").2 = 1 ∧
    get_estado_rfc_ente
        (actualizar_solventacion [] 5 "CUPU800825569" "Solventado" "ok" "").1
        "CUPU800825569" "GENERAL" = some "Solventado" :=
  c7_solventacion_spec [] 5 "CUPU800825569" "Solventado" "ok" "ENTE_00002"
    (by decide) (by decide) (by decide)

/-- The vistos loop only keeps rows of its input. -/
theorem dedupRegistros_subset :
    ∀ (l : List Registro) (seen), ∀ r ∈ dedupRegistros seen l, r ∈ l := by
  intro l
  induction l with
  | nil => intro seen r hr; cases hr
  | cons a tl ih =>
    intro seen r hr
    by_cases hc : seen.contains (regKey a) = true
    · rw [dedupRegistros, if_pos hc] at hr
      exact List.mem_cons_of_mem a (ih seen r hr)
    · rw [dedupRegistros, if_neg hc] at hr
      rcases List.mem_cons.mp hr with he | hm
      · exact he ▸ List.mem_cons_self a tl
      · exact List.mem_cons_of_mem a (ih _ r hm)

/-- The vistos loop never emits a row whose key was already seen. -/
theorem dedupRegistros_fresh :
    ∀ (l : List Registro) (seen), ∀ r ∈ dedupRegistros seen l, ¬ regKey r ∈ seen := by
  intro l
  induction l with
  | nil => intro seen r hr; cases hr
  | cons a tl ih =>
    intro seen r hr
    by_cases hc : seen.contains (regKey a) = true
    · rw [dedupRegistros, if_pos hc] at hr
      exact ih seen r hr
    · rw [dedupRegistros, if_neg hc] at hr
      rcases List.mem_cons.mp hr with he | hm
      · subst he
        simpa using hc
      · intro hmem
        exact ih _ r hm (List.mem_cons_of_mem _ hmem)

/-- The keys of the rows kept by the vistos loop are pairwise distinct. -/
theorem dedupRegistros_nodup_keys :
    ∀ (l : List Registro) (seen), ((dedupRegistros seen l).map regKey).Nodup := by
  intro l
  induction l with
  | nil => intro seen; simp [dedupRegistros]
  | cons a tl ih =>
    intro seen
    by_cases hc : seen.contains (regKey a) = true
    · rw [dedupRegistros, if_pos hc]
      exact ih seen
    · rw [dedupRegistros, if_neg hc]
      rw [List.map_cons, List.nodup_cons]
      refine ⟨?_, ih _⟩
      intro hmem
      rw [List.mem_map] at hmem
      obtain ⟨r2, hr2, hk⟩ := hmem
      exact dedupRegistros_fresh tl _ r2 hr2 (hk ▸ List.mem_cons_self _ _)

/-- Every key of the input is represented among the kept rows (or was already
seen when the loop started). -/
theorem dedupRegistros_covers :
    ∀ (l : List Registro) (seen), ∀ reg ∈ l,
      regKey reg ∈ seen ∨ ∃ r2 ∈ dedupRegistros seen l, regKey r2 = regKey reg := by
  intro l
  induction l with
  | nil => intro seen reg hreg; cases hreg
  | cons a tl ih =>
    intro seen reg hreg
    by_cases hc : seen.contains (regKey a) = true
    · rw [dedupRegistros, if_pos hc]
      rcases List.mem_cons.mp hreg with he | hm
      · subst he
        exact Or.inl (by simpa using hc)
      · exact ih seen reg hm
    · rw [dedupRegistros, if_neg hc]
      rcases List.mem_cons.mp hreg with he | hm
      · subst he
        exact Or.inr ⟨reg, List.mem_cons_self _ _, rfl⟩
      · rcases ih (regKey a :: seen) reg hm with hseen | ⟨r2, hr2, hk⟩
        · rcases List.mem_cons.mp hseen with hk | hs
          · exact Or.inr ⟨a, List.mem_cons_self _ _, hk.symm⟩
          · exact Or.inl hs
        · exact Or.inr ⟨r2, List.mem_cons_of_mem a hr2, hk⟩

/-- Claim C5 counterexample: with an older and a newer finding persisted for
the same RFC, the merged record returns the estado of the OLDEST inserted
row, not of the most recently inserted one as the claim states. -/
theorem c5_counterexample :
    (obtener_resultados_por_rfc tablaEx "CUPU800825569").map (·.estado)
      = some "No Solventado" ∧
    (obtener_resultados_por_rfc tablaEx "CUPU800825569").map (·.estado)
      ≠ some "Solventado" ∧
    (matchingDatos tablaEx "CUPU800825569").getLast?.map (·.estado)
      = some "Solventado" := by
  refine ⟨by decide, ?_, by decide⟩
  intro h
  have h2 : (obtener_resultados_por_rfc tablaEx "CUPU800825569").map (·.estado)
      = some "No Solventado" := by decide
  rw [h2] at h
  exact absurd (Option.some.inj h) (by decide)

/-- Claim C5 (amended): get_by_rfc returns null exactly when no finding for
the rfc exists; otherwise it merges them so that registros is deduplicated on
the tuple regKey (each source tuple represented once, nothing else added),
entes is the union of the entes across the findings, and estado and
solventacion are those of the EARLIEST inserted finding (the head of the
matching rows in id order), not of the most recent one. -/
theorem c5_get_by_rfc_spec (tabla : List LabRow) (rfc : String) :
    (obtener_resultados_por_rfc tabla rfc = none ↔ matchingDatos tabla rfc = []) ∧
    (∀ h0, (matchingDatos tabla rfc).head? = some h0 →
      ∃ m, obtener_resultados_por_rfc tabla rfc = some m ∧
        m.estado = h0.estado ∧ m.solventacion = h0.solventacion ∧
        (m.registros.map regKey).Nodup ∧
        (∀ reg ∈ (matchingDatos tabla rfc).flatMap (·.registros),
          ∃ r2 ∈ m.registros, regKey r2 = regKey reg) ∧
        (∀ r2 ∈ m.registros, r2 ∈ (matchingDatos tabla rfc).flatMap (·.registros)) ∧
        (∀ e, e ∈ m.entes ↔ ∃ h ∈ matchingDatos tabla rfc, e ∈ h.entes)) := by
  constructor
  · simp only [obtener_resultados_por_rfc]
    by_cases he : (matchingDatos tabla rfc).reverse.isEmpty = true
    · rw [if_pos he]
      rw [List.isEmpty_iff, List.reverse_eq_nil_iff] at he
      simp [he]
    · rw [if_neg he]
      rw [List.isEmpty_iff, List.reverse_eq_nil_iff] at he
      constructor
      · intro h; cases h
      · intro h; exact absurd h he
  · intro h0 hh0
    have hne : matchingDatos tabla rfc ≠ [] := by
      intro hnil
      rw [hnil] at hh0
      cases hh0
    have hemp : (matchingDatos tabla rfc).reverse.isEmpty = false := by
      rw [List.isEmpty_eq_false_iff_exists_mem]
      obtain ⟨x, hx⟩ := List.exists_mem_of_ne_nil _ hne
      exact ⟨x, List.mem_reverse.mpr hx⟩
    refine ⟨_, by simp only [obtener_resultados_por_rfc]; rw [hemp]; rfl, ?_, ?_, ?_, ?_, ?_, ?_⟩
    · show (((matchingDatos tabla rfc).reverse.getLast?).map (·.estado)).getD "Sin valoración"
        = h0.estado
      rw [List.getLast?_reverse, hh0]
      rfl
    · show (((matchingDatos tabla rfc).reverse.getLast?).map (·.solventacion)).getD ""
        = h0.solventacion
      rw [List.getLast?_reverse, hh0]
      rfl
    · exact dedupRegistros_nodup_keys _ []
    · intro reg hreg
      have hrev : reg ∈ (matchingDatos tabla rfc).reverse.flatMap (·.registros) := by
        rw [List.mem_flatMap] at hreg ⊢
        obtain ⟨h, hh, hr⟩ := hreg
        exact ⟨h, List.mem_reverse.mpr hh, hr⟩
      rcases dedupRegistros_covers _ [] reg hrev with hseen | hfound
      · cases hseen
      · exact hfound
    · intro r2 hr2
      have hrev := dedupRegistros_subset _ [] r2 hr2
      rw [List.mem_flatMap] at hrev ⊢
      obtain ⟨h, hh, hr⟩ := hrev
      exact ⟨h, List.mem_reverse.mp hh, hr⟩
    · intro e
      show e ∈ ((matchingDatos tabla rfc).reverse.flatMap (·.entes)).dedup ↔ _
      rw [List.mem_dedup, List.mem_flatMap]
      constructor
      · rintro ⟨h, hh, hhe⟩
        exact ⟨h, List.mem_reverse.mp hh, hhe⟩
      · rintro ⟨h, hh, hhe⟩
        exact ⟨h, List.mem_reverse.mpr hh, hhe⟩

/-- Witness for claim C5: the amended statement instantiated on the concrete
two-finding table tablaEx, whose earliest inserted finding is hallOld. -/
theorem c5_witness :
    ∃ m, obtener_resultados_por_rfc tablaEx "CUPU800825569" = some m ∧
      m.estado = hallOld.estado ∧ m.solventacion = hallOld.solventacion ∧
      (m.registros.map regKey).Nodup ∧
      (∀ reg ∈ (matchingDatos tablaEx "CUPU800825569").flatMap (·.registros),
        ∃ r2 ∈ m.registros, regKey r2 = regKey reg) ∧
      (∀ r2 ∈ m.registros, r2 ∈ (matchingDatos tablaEx "CUPU800825569").flatMap (·.registros)) ∧
      (∀ e, e ∈ m.entes ↔ ∃ h ∈ matchingDatos tablaEx "CUPU800825569", e ∈ h.entes) :=
  (c5_get_by_rfc_spec tablaEx "CUPU800825569").2 hallOld (by decide)

/-- Claim C8 counterexample: the spec recognizes both TODOS and ALL as
full-access sentinels, but _allowed_all accepts only TODOS: on the token list
with the single token ALL it returns false while the spec contract (modeled
by has_full_access) says true. -/
theorem c8_counterexample :
    allowed_all ["ALL"] = false ∧ has_full_access ["ALL"] = true := by
  decide

/-- Claim C8 (amended): _allowed_all returns true iff some user token, after
trim and uppercase, equals exactly TODOS; the ALL sentinel (and any accent
stripping) plays no role. -/
theorem c8_allowed_all_iff (tokens : List String) :
    allowed_all tokens = true ↔ ∃ t ∈ tokens, sanitize_text t = "TODOS" := by
  rw [allowed_all, List.any_eq_true]
  constructor
  · rintro ⟨t, ht, he⟩
    exact ⟨t, ht, by simpa using he⟩
  · rintro ⟨t, ht, he⟩
    exact ⟨t, ht, by simpa using he⟩

/-- A find? over a list returns the designated element when that element
satisfies the predicate and is the only satisfier in the list. -/
theorem find?_eq_of_unique (p : Ente → Bool) (l : List Ente) (e : Ente)
    (he : e ∈ l) (hpe : p e = true) (huniq : ∀ x ∈ l, p x = true → x = e) :
    l.find? p = some e := by
  induction l with
  | nil => cases he
  | cons a tl ih =>
    by_cases hpa : p a = true
    · rw [List.find?_cons_of_pos _ hpa, huniq a (List.mem_cons_self a tl) hpa]
    · rw [List.find?_cons_of_neg _ hpa]
      rcases List.mem_cons.mp he with h | h
      · subst h
        exact absurd hpe hpa
      · exact ih h (fun x hx hpx => huniq x (List.mem_cons_of_mem a hx) hpx)

/-- Claim C9 counterexample: on the seed catalog, resolving the clave
ENTE_00001 and displaying it yields the siglas SEGOB, whose normalized form
differs from the normalized input clave — the claimed round trip fails for
labels that are claves (and likewise for nombres whenever siglas exist). -/
theorem c9_counterexample :
    sanitize (ente_display seedEntes (normalizar_ente_clave seedEntes "ENTE_00001"))
      = "SEGOB" ∧
    sanitize (ente_display seedEntes (normalizar_ente_clave seedEntes "ENTE_00001"))
      ≠ sanitize "ENTE_00001" := by
  decide

/-- Claim C9 (amended): the display-resolve round trip does hold for the
siglas of a catalog entity, on a catalog whose labels are in normal form,
pairwise unambiguous across entities, with nonempty clave and siglas:
resolving the siglas finds the entity, display of its clave returns the
siglas, and the normalized forms agree. For claves and nombres the round trip
returns the siglas instead, as the counterexample shows. -/
theorem c9_display_resolve_siglas (catalogo : List Ente)
    (hclean : ∀ x ∈ catalogo, Clean x.clave ∧ Clean x.nombre ∧ Clean x.siglas)
    (hdisj : ∀ e1 ∈ catalogo, ∀ e2 ∈ catalogo, ∀ l1 ∈ labels e1, l1 ∈ labels e2 → e1 = e2)
    (e : Ente) (he : e ∈ catalogo) (hcl : e.clave ≠ "") (hs : e.siglas ≠ "") :
    sanitize (ente_display catalogo (normalizar_ente_clave catalogo e.siglas))
      = sanitize e.siglas := by
  obtain ⟨hc1, hc2, hc3⟩ := hclean e he
  have hres : normalizar_ente_clave catalogo e.siglas = some e.clave := by
    rw [normalizar_ente_clave, if_neg hs]
    have hfind : catalogo.find? (fun x =>
        sqlUpper x.siglas == sanitize e.siglas || sqlUpper x.nombre == sanitize e.siglas
          || sqlUpper x.clave == sanitize e.siglas) = some e := by
      refine find?_eq_of_unique _ _ e he ?_ ?_
      · rw [hc3.1, hc3.2.1]
        simp
      · intro x hx hpx
        obtain ⟨hx1, hx2, hx3⟩ := hclean x hx
        rw [hc3.1, hx1.2.1, hx2.2.1, hx3.2.1] at hpx
        have hlab : e.siglas ∈ labels x := by
          rcases Bool.or_eq_true_iff.mp hpx with hh | hh
          · rcases Bool.or_eq_true_iff.mp hh with h1 | h1
            · rw [beq_iff_eq] at h1
              rw [labels, ← h1]
              simp
            · rw [beq_iff_eq] at h1
              rw [labels, ← h1]
              simp
          · rw [beq_iff_eq] at hh
            rw [labels, ← hh]
            simp
        exact hdisj x hx e he e.siglas hlab (by rw [labels]; simp)
    show (catalogo.find? fun x =>
        sqlUpper x.siglas == sanitize e.siglas || sqlUpper x.nombre == sanitize e.siglas
          || sqlUpper x.clave == sanitize e.siglas).map (·.clave) = some e.clave
    rw [hfind]
    rfl
  rw [hres, ente_display, if_neg hcl]
  have hfind2 : catalogo.find? (fun x =>
      sanitize_text e.clave == (cacheEntry x).1 || sanitize_text e.clave == (cacheEntry x).2.1
        || sanitize_text e.clave == (cacheEntry x).2.2) = some e := by
    refine find?_eq_of_unique _ _ e he ?_ ?_
    · rw [cacheEntry]
      rw [hc1.2.2]
      simp
    · intro x hx hpx
      obtain ⟨hx1, hx2, hx3⟩ := hclean x hx
      rw [cacheEntry, hc1.2.2, hx1.2.2, hx2.2.2, hx3.2.2] at hpx
      have hlab : e.clave ∈ labels x := by
        rcases Bool.or_eq_true_iff.mp hpx with hh | hh
        · rcases Bool.or_eq_true_iff.mp hh with h1 | h1
          · rw [beq_iff_eq] at h1
            rw [labels, h1]
            simp
          · rw [beq_iff_eq] at h1
            rw [labels, h1]
            simp
        · rw [beq_iff_eq] at hh
          rw [labels, hh]
          simp
      exact hdisj x hx e he e.clave hlab (by rw [labels]; simp)
  rw [hfind2, displayPick, cacheEntry]
  rw [hc3.2.2]
  rw [if_pos hs]

/-- Witness for claim C9: the amended round trip instantiated on the cleaned
catalog catClean at the siglas SEGOB. -/
theorem c9_witness :
    sanitize (ente_display catClean (normalizar_ente_clave catClean "SEGOB"))
      = sanitize "SEGOB" :=
  c9_display_resolve_siglas catClean (by decide) (by decide)
    { clave := "ENTE_00001", nombre := "SECRETARIA DE GOBIERNO", siglas := "SEGOB" }
    (by decide) (by decide) (by decide)
